import Mathlib

/-!
Verification of the Monte Carlo league-simulation core.

This file gives a shallow embedding, in Lean 4, of the simulation core of the
league-simulator repository and proves the specified properties about it.
Source files embedded here:
  src/elo/mod.rs                 (calculate_elo_change)
  src/simulation/match_sim.rs    (simulate_match, poisson_quantile_statrs)
  src/simulation/season.rs       (simulate_season, calculate_table, process_season)
  src/monte_carlo/mod.rs         (run_monte_carlo_simulation)

Modelling conventions:
  - f64 values are modelled by real numbers; i32 by ℤ; usize by ℕ.
  - The statrs Poisson CDF (an external crate) is modelled by the exact
    mathematical Poisson CDF.
  - The rand StdRng (an external crate) is modelled by an abstract stream of
    reals: a function from the u64 seed to a sequence of samples.  All
    theorems quantify over that stream.
  - Rust's stable slice sort (sort_by) is modelled by insertion sort, which
    computes the same stable sort for a total preorder comparator.
  - The rayon parallel iteration over trials is modelled by a fold over an
    arbitrary scheduling order (a permutation of the trial indices).
-/

set_option maxHeartbeats 1600000

namespace LeagueSim

/-- Match record: team indices plus optional goals, mirroring `models::Match`
(`team_home, team_away : usize`, `goals_home, goals_away : Option<i32>`). -/
structure Match where
  team_home : ℕ
  team_away : ℕ
  goals_home : Option ℤ
  goals_away : Option ℤ
  deriving DecidableEq

/-- Season record mirroring `models::Season`.  The source field `matches` is
called `matchList` here because `matches` is a Lean keyword. -/
structure Season where
  matchList : List Match
  team_elos : List ℝ
  number_teams : ℕ

/-- League-table entry mirroring `models::TeamStanding`. -/
structure TeamStanding where
  team_id : ℕ
  played : ℤ
  won : ℤ
  drawn : ℤ
  lost : ℤ
  goals_for : ℤ
  goals_against : ℤ
  goal_difference : ℤ
  points : ℤ
  position : ℕ
  deriving DecidableEq

/-- League table mirroring `models::LeagueTable`. -/
structure LeagueTable where
  standings : List TeamStanding
  deriving DecidableEq

/-- Simulation parameters mirroring `models::SimulationParams`. -/
structure SimulationParams where
  mod_factor : ℝ
  home_advantage : ℝ
  iterations : ℕ
  tore_slope : ℝ
  tore_intercept : ℝ

/-- Functional model of an in-place update of entry `i` of a vector
(`standings[i] = f(standings[i])` on a Rust `Vec`). -/
def updIdx (f : α → α) : ℕ → List α → List α
  | _, [] => []
  | 0, a :: as => f a :: as
  | n + 1, a :: as => a :: updIdx f n as

/-- Initial standing of team `i`: all counters zero, with the four optional
adjustment vectors seeding `points`, `goals_for`, `goals_against` and
`goal_difference` (`adj.map(|a| a[i]).unwrap_or(0)` in the source). -/
def initStanding (adj_points adj_goals adj_goals_against adj_goal_diff : Option (List ℤ))
    (i : ℕ) : TeamStanding :=
  { team_id := i, played := 0, won := 0, drawn := 0, lost := 0,
    goals_for := (adj_goals.map (fun a => a.getD i 0)).getD 0,
    goals_against := (adj_goals_against.map (fun a => a.getD i 0)).getD 0,
    goal_difference := (adj_goal_diff.map (fun a => a.getD i 0)).getD 0,
    points := (adj_points.map (fun a => a.getD i 0)).getD 0,
    position := 0 }

/-- The in-place row updates performed by `calculate_table` for a match with
goals `gh`-`ga`, as a list of (row index, row update) pairs, in source order:
played for both sides, goals for/against, goal difference, then the
win/draw/loss block. -/
def matchOps (m : Match) (gh ga : ℤ) : List (ℕ × (TeamStanding → TeamStanding)) :=
  [(m.team_home, fun s => { s with played := s.played + 1 }),
   (m.team_away, fun s => { s with played := s.played + 1 }),
   (m.team_home, fun s => { s with goals_for := s.goals_for + gh,
                                   goals_against := s.goals_against + ga }),
   (m.team_away, fun s => { s with goals_for := s.goals_for + ga,
                                   goals_against := s.goals_against + gh }),
   (m.team_home, fun s => { s with goal_difference := s.goal_difference + (gh - ga) }),
   (m.team_away, fun s => { s with goal_difference := s.goal_difference + (ga - gh) })] ++
  (if gh > ga then
    [(m.team_home, fun s => { s with won := s.won + 1, points := s.points + 3 }),
     (m.team_away, fun s => { s with lost := s.lost + 1 })]
   else if gh < ga then
    [(m.team_away, fun s => { s with won := s.won + 1, points := s.points + 3 }),
     (m.team_home, fun s => { s with lost := s.lost + 1 })]
   else
    [(m.team_home, fun s => { s with drawn := s.drawn + 1, points := s.points + 1 }),
     (m.team_away, fun s => { s with drawn := s.drawn + 1, points := s.points + 1 })])

/-- One step of the match loop of `calculate_table`: a match contributes to
the standings only when both goal fields are present, and then applies the
row updates of `matchOps` in source order. -/
def processMatch (standings : List TeamStanding) (m : Match) : List TeamStanding :=
  match m.goals_home, m.goals_away with
  | some gh, some ga => (matchOps m gh ga).foldl (fun L op => updIdx op.2 op.1 L) standings
  | _, _ => standings

/-- The sort comparator of `calculate_table`: `a` may come before `b` exactly
when `b.points.cmp(&a.points).then(gd).then(gf)` is not `Greater`, i.e.
points descending, then goal difference descending, then goals for
descending. -/
@[reducible] def tableLe (a b : TeamStanding) : Prop :=
  b.points < a.points ∨
    (b.points = a.points ∧
      (b.goal_difference < a.goal_difference ∨
        (b.goal_difference = a.goal_difference ∧
          (b.goals_for < a.goals_for ∨ b.goals_for = a.goals_for))))

instance : DecidableRel tableLe := fun _ _ => inferInstance

/-- Position assignment after the sort: `standing.position = index + 1`. -/
def assignPositions : ℕ → List TeamStanding → List TeamStanding
  | _, [] => []
  | n, s :: ss => { s with position := n } :: assignPositions (n + 1) ss

/-- League-table construction mirroring `calculate_table` in
`src/simulation/season.rs`: seed standings from the adjustment vectors, fold
the match list, stable-sort by the comparator, then assign 1-based
positions. -/
def calculate_table (ms : List Match) (number_teams : ℕ)
    (adj_points adj_goals adj_goals_against adj_goal_diff : Option (List ℤ)) : LeagueTable :=
  let standings := (List.range number_teams).map
    (initStanding adj_points adj_goals adj_goals_against adj_goal_diff)
  let processed := ms.foldl processMatch standings
  let sorted := List.insertionSort tableLe processed
  { standings := assignPositions 1 sorted }

/-- Per-team functional mirror of one `processMatch` step: the effect of a
single match on the standing of team `i` (each row update of `matchOps`
applies exactly when its row index is `i`). -/
def teamStep (i : ℕ) (s : TeamStanding) (m : Match) : TeamStanding :=
  match m.goals_home, m.goals_away with
  | some gh, some ga => (matchOps m gh ga).foldl (fun s op => if op.1 = i then op.2 s else s) s
  | _, _ => s

/-- Accumulated standing of team `i` over a match list. -/
def teamStats (adj_points adj_goals adj_goals_against adj_goal_diff : Option (List ℤ))
    (i : ℕ) (ms : List Match) : TeamStanding :=
  ms.foldl (teamStep i) (initStanding adj_points adj_goals adj_goals_against adj_goal_diff i)

/-- The combination `goal_difference − goals_for + goals_against` of a
standing; `calculate_table` preserves it for every processed match. -/
def gdInv (s : TeamStanding) : ℤ := s.goal_difference - s.goals_for + s.goals_against

/-- Forget the (sort-assigned) position of a standing. -/
def erasePos (s : TeamStanding) : TeamStanding := { s with position := 0 }

/-- The strict display order of the sorted table: points descending, then
goal difference descending, then goals for descending, with remaining ties
broken by team index ascending. -/
def standingBefore (a b : TeamStanding) : Prop :=
  b.points < a.points ∨
    (b.points = a.points ∧
      (b.goal_difference < a.goal_difference ∨
        (b.goal_difference = a.goal_difference ∧
          (b.goals_for < a.goals_for ∨
            (b.goals_for = a.goals_for ∧ a.team_id < b.team_id)))))

/-- Parameters of the rating update, mirroring `models::EloParams`. -/
structure EloParams where
  elo_home : ℝ
  elo_away : ℝ
  goals_home : ℤ
  goals_away : ℤ
  mod_factor : ℝ
  home_advantage : ℝ

/-- Result record of the rating update, mirroring `models::EloResult`. -/
structure EloResult where
  new_elo_home : ℝ
  new_elo_away : ℝ
  goals_home : ℤ
  goals_away : ℤ
  win_probability_home : ℝ

/-- Rating update mirroring `calculate_elo_change` in `src/elo/mod.rs`:
inverted rating delta clamped to `[-400, 400]`, logistic win probability,
signum-based result score, square-root goal-difference weight, and opposite
rating shifts for the two teams. -/
noncomputable def calculate_elo_change (params : EloParams) : EloResult :=
  let elo_delta_inv := params.elo_away - params.elo_home - params.home_advantage
  let elo_delta_inv_clamped := min (max elo_delta_inv (-400)) 400
  let elo_prob := 1 / (1 + (10 : ℝ) ^ (elo_delta_inv_clamped / 400))
  let goal_diff := params.goals_home - params.goals_away
  let result :=
    (((if 0 < goal_diff then (1 : ℤ) else 0) - (if goal_diff < 0 then 1 else 0) + 1 : ℤ) : ℝ) / 2
  let goal_mod := Real.sqrt ((max (|goal_diff|) 1 : ℤ) : ℝ)
  let elo_modificator := (result - elo_prob) * goal_mod * params.mod_factor
  { new_elo_home := params.elo_home + elo_modificator,
    new_elo_away := params.elo_away - elo_modificator,
    goals_home := params.goals_home,
    goals_away := params.goals_away,
    win_probability_home := elo_prob }

/-- The rating update exactly as worded in §4.1 of the specification, for the
refinement statement of C3: result score `(sgn(goal_diff) + 1) / 2` and
weight `sqrt(max(1, |goal_diff|))`. -/
noncomputable def elo_update_spec (params : EloParams) : EloResult :=
  let delta_inv := params.elo_away - params.elo_home - params.home_advantage
  let clamped := min (max delta_inv (-400)) 400
  let p_home := 1 / (1 + (10 : ℝ) ^ (clamped / 400))
  let goal_diff := params.goals_home - params.goals_away
  let r := ((Int.sign goal_diff + 1 : ℤ) : ℝ) / 2
  let weight := Real.sqrt ((max 1 (|goal_diff|) : ℤ) : ℝ)
  let shift := (r - p_home) * weight * params.mod_factor
  { new_elo_home := params.elo_home + shift,
    new_elo_away := params.elo_away - shift,
    goals_home := params.goals_home,
    goals_away := params.goals_away,
    win_probability_home := p_home }

/-- Exact Poisson cumulative distribution function
`CDF(k; λ) = e^(−λ) · Σ_(i ≤ k) λ^i / i!`, the mathematical semantics of the
statrs `poisson.cdf` call used by `poisson_quantile_statrs`. -/
noncomputable def poissonCDF (lam : ℝ) (k : ℕ) : ℝ :=
  Real.exp (-lam) * ∑ i ∈ Finset.range (k + 1), lam ^ i / (Nat.factorial i)

/-- The binary-search loop of `poisson_quantile_statrs`: while `low < high`,
probe `mid = (low + high) / 2` and keep the half in which the answer lies,
moving `low` past `mid` exactly when `cdf(mid) < p`. -/
noncomputable def pqSearch (lam p : ℝ) (low high : ℕ) : ℕ :=
  if h : low < high then
    let mid := (low + high) / 2
    if poissonCDF lam mid < p then pqSearch lam p (mid + 1) high
    else pqSearch lam p low mid
  else low
  termination_by high - low
  decreasing_by
  · omega
  · omega

/-- Poisson quantile mirroring `poisson_quantile_statrs` in
`src/simulation/match_sim.rs`: `p ≤ 0` returns `0`, `p ≥ 1` returns `+∞`
(modelled by `⊤`), and otherwise a binary search over
`[0, (λ·3 + 20) as u64]` with the non-strict acceptance test `cdf(mid) ≥ p`. -/
noncomputable def poisson_quantile_statrs (p lam : ℝ) : WithTop ℕ :=
  if p ≤ 0 then ((0 : ℕ) : WithTop ℕ)
  else if 1 ≤ p then ⊤
  else ((pqSearch lam p 0 (Nat.floor (lam * 3 + 20)) : ℕ) : WithTop ℕ)

/-- Saturating `as i32` cast applied to the f64 value returned by the
quantile: `+∞` (and any value beyond `i32::MAX`) maps to `2147483647`. -/
def goalsOfQuantile : WithTop ℕ → ℤ
  | none => 2147483647
  | some k => min (k : ℤ) 2147483647

/-- Match simulation mirroring `simulate_match` in
`src/simulation/match_sim.rs`: linear rating-to-mean maps floored at
`0.001`, Poisson-sampled goals from the two uniform draws, then the rating
update on the sampled result. -/
noncomputable def simulate_match (elo_home elo_away mod_factor home_advantage
    tore_slope tore_intercept random_home random_away : ℝ) : EloResult :=
  let elo_delta := elo_home + home_advantage - elo_away
  let tore_heim_durchschnitt := max (elo_delta * tore_slope + tore_intercept) 0.001
  let tore_gast_durchschnitt := max ((-elo_delta) * tore_slope + tore_intercept) 0.001
  let goals_home := goalsOfQuantile (poisson_quantile_statrs random_home tore_heim_durchschnitt)
  let goals_away := goalsOfQuantile (poisson_quantile_statrs random_away tore_gast_durchschnitt)
  calculate_elo_change
    { elo_home := elo_home, elo_away := elo_away, goals_home := goals_home,
      goals_away := goals_away, mod_factor := mod_factor, home_advantage := home_advantage }

/-- Loop of `simulate_season`, walking the match list in order.  The rand
StdRng is modelled as a stream `rng : ℕ → ℝ` with an explicit cursor `n`: a
simulated match consumes `(rng n, rng (n+1))` (home draw first), an
already-played match consumes nothing.  Ratings are updated after every
match; simulated goals are written back into the result list. -/
noncomputable def simSeasonGo (mod_factor home_advantage tore_slope tore_intercept : ℝ)
    (rng : ℕ → ℝ) : List Match → List ℝ → ℕ → List Match × List ℝ
  | [], elos, _ => ([], elos)
  | m :: ms, elos, n =>
    if m.goals_home = none then
      let r := simulate_match (elos.getD m.team_home 0) (elos.getD m.team_away 0)
        mod_factor home_advantage tore_slope tore_intercept (rng n) (rng (n + 1))
      let elos2 := (elos.set m.team_home r.new_elo_home).set m.team_away r.new_elo_away
      let rest := simSeasonGo mod_factor home_advantage tore_slope tore_intercept rng ms elos2
        (n + 2)
      ({ m with goals_home := some r.goals_home, goals_away := some r.goals_away } :: rest.1,
        rest.2)
    else
      let r := calculate_elo_change
        { elo_home := elos.getD m.team_home 0, elo_away := elos.getD m.team_away 0,
          goals_home := m.goals_home.getD 0, goals_away := m.goals_away.getD 0,
          mod_factor := mod_factor, home_advantage := home_advantage }
      let elos2 := (elos.set m.team_home r.new_elo_home).set m.team_away r.new_elo_away
      let rest := simSeasonGo mod_factor home_advantage tore_slope tore_intercept rng ms elos2 n
      (m :: rest.1, rest.2)

/-- Season walk mirroring `simulate_season` in `src/simulation/season.rs`.
The source clones `season.matches` and `season.team_elos` and never writes to
the input season; in this functional model that immutability is inherent. -/
noncomputable def simulate_season (season : Season)
    (mod_factor home_advantage tore_slope tore_intercept : ℝ) (rng : ℕ → ℝ) :
    List Match × List ℝ :=
  simSeasonGo mod_factor home_advantage tore_slope tore_intercept rng
    season.matchList season.team_elos 0

/-- Simulate the remaining matches, then build the table, mirroring
`process_season` in `src/simulation/season.rs`. -/
noncomputable def process_season (season : Season)
    (mod_factor home_advantage tore_slope tore_intercept : ℝ)
    (adj_points adj_goals adj_goals_against adj_goal_diff : Option (List ℤ))
    (rng : ℕ → ℝ) : LeagueTable × List ℝ :=
  let res := simulate_season season mod_factor home_advantage tore_slope tore_intercept rng
  (calculate_table res.1 season.number_teams adj_points adj_goals adj_goals_against adj_goal_diff,
    res.2)

/-- One Monte Carlo trial of `run_monte_carlo_simulation`: the RNG is seeded
solely from the trial index (`StdRng::seed_from_u64(iteration as u64)`), and
no adjustments are passed.  `stdRng` abstracts the rand crate's
seed-to-stream map; every theorem quantifies over it. -/
noncomputable def trialTable (stdRng : ℕ → ℕ → ℝ) (season : Season)
    (params : SimulationParams) (i : ℕ) : LeagueTable :=
  (process_season season params.mod_factor params.home_advantage params.tore_slope
    params.tore_intercept none none none none (stdRng i)).1

/-- Effect of one finished trial on the shared position-count histogram:
every standing of the trial's table increments cell
`(team_id, position − 1)`; cell `(t, p)` therefore grows by the number of
standings with `team_id = t` and `position = p + 1`. -/
noncomputable def recordTrial (h : ℕ → ℕ → ℕ) (tbl : LeagueTable) : ℕ → ℕ → ℕ :=
  fun t p => h t p + (tbl.standings.map (fun s => (s.team_id, s.position))).count (t, p + 1)

/-- The histogram after the trials listed in `sched` have been tallied, in
that order.  The rayon parallel `for_each` is modelled by an arbitrary
execution order of the trial indices. -/
noncomputable def histAfter (stdRng : ℕ → ℕ → ℝ) (season : Season)
    (params : SimulationParams) (sched : List ℕ) : ℕ → ℕ → ℕ :=
  sched.foldl (fun h i => recordTrial h (trialTable stdRng season params i)) (fun _ _ => 0)

/-- Contribution of trial `i` to histogram cell `(t, p)`. -/
noncomputable def trialCount (stdRng : ℕ → ℕ → ℝ) (season : Season)
    (params : SimulationParams) (i t p : ℕ) : ℕ :=
  ((trialTable stdRng season params i).standings.map (fun s => (s.team_id, s.position))).count
    (t, p + 1)

/-- Probability matrix of `run_monte_carlo_simulation` before display
reordering: every cell is its histogram count divided by the iteration
count. -/
noncomputable def probMatrix (stdRng : ℕ → ℕ → ℝ) (season : Season)
    (params : SimulationParams) (sched : List ℕ) : List (List ℝ) :=
  (List.range season.number_teams).map (fun t =>
    (List.range season.number_teams).map (fun p =>
      ((histAfter stdRng season params sched t p : ℕ) : ℝ) / (params.iterations : ℝ)))

/-- Expected finishing position of a matrix row:
`Σ (pos + 1) · probability[pos]` over the enumerated row. -/
noncomputable def avgPosition (row : List ℝ) : ℝ :=
  (row.enum.map (fun pr => ((pr.1 + 1 : ℕ) : ℝ) * pr.2)).sum

/-- Comparator of the `team_rankings` sort: ascending expected position
(`partial_cmp` on the f64 averages in the source). -/
def rankLe (a b : ℕ × ℝ) : Prop := a.2 ≤ b.2

noncomputable instance : DecidableRel rankLe := fun a b =>
  inferInstanceAs (Decidable (a.2 ≤ b.2))

/-- The probability-matrix output of `run_monte_carlo_simulation` with the
trial execution order `sched` made explicit: rows are reordered by expected
finishing position, best first. -/
noncomputable def run_monte_carlo_scheduled (stdRng : ℕ → ℕ → ℝ) (season : Season)
    (params : SimulationParams) (sched : List ℕ) : List (List ℝ) :=
  let pm := probMatrix stdRng season params sched
  let team_rankings := List.insertionSort rankLe
    ((List.range season.number_teams).map (fun t => (t, avgPosition (pm.getD t []))))
  team_rankings.map (fun pr => pm.getD pr.1 [])

/-- The probability matrix returned by `run_monte_carlo_simulation` in
`src/monte_carlo/mod.rs`: trials `0 … iterations − 1`. -/
noncomputable def run_monte_carlo_simulation (stdRng : ℕ → ℕ → ℝ) (season : Season)
    (params : SimulationParams) : List (List ℝ) :=
  run_monte_carlo_scheduled stdRng season params (List.range params.iterations)

theorem length_updIdx (f : α → α) (j : ℕ) (l : List α) : (updIdx f j l).length = l.length := by
  induction l generalizing j with
  | nil => cases j <;> rfl
  | cons a as ih =>
    cases j with
    | zero => rfl
    | succ n => simpa [updIdx] using ih n

theorem getElem?_updIdx (f : α → α) (j : ℕ) (l : List α) (i : ℕ) :
    (updIdx f j l)[i]? = if j = i then (l[i]?).map f else l[i]? := by
  induction l generalizing i j with
  | nil => cases j <;> simp [updIdx]
  | cons a as ih =>
    cases j with
    | zero =>
      cases i with
      | zero => simp [updIdx]
      | succ k => simp [updIdx]
    | succ n =>
      cases i with
      | zero => simp [updIdx]
      | succ k => simpa [updIdx] using ih n k

theorem getElem?_foldl_updIdx (ops : List (ℕ × (α → α))) (L : List α) (i : ℕ) :
    (ops.foldl (fun L op => updIdx op.2 op.1 L) L)[i]? =
      (L[i]?).map (fun a => ops.foldl (fun s op => if op.1 = i then op.2 s else s) a) := by
  induction ops generalizing L with
  | nil => cases h : L[i]? <;> simp [h]
  | cons op rest ih =>
    simp only [List.foldl_cons]
    rw [ih, getElem?_updIdx]
    by_cases h : op.1 = i <;> cases L[i]? <;> simp [h]

theorem getElem?_processMatch (L : List TeamStanding) (m : Match) (i : ℕ) :
    (processMatch L m)[i]? = (L[i]?).map (fun s => teamStep i s m) := by
  cases hg : m.goals_home with
  | none => cases o : L[i]? <;> simp [processMatch, teamStep, hg, o]
  | some gh =>
    cases ha : m.goals_away with
    | none => cases o : L[i]? <;> simp [processMatch, teamStep, hg, ha, o]
    | some ga => simp only [processMatch, teamStep, hg, ha, getElem?_foldl_updIdx]

theorem getElem?_foldl_processMatch (ms : List Match) (L : List TeamStanding) (i : ℕ) :
    (ms.foldl processMatch L)[i]? = (L[i]?).map (fun s => ms.foldl (teamStep i) s) := by
  induction ms generalizing L with
  | nil => cases h : L[i]? <;> simp [h]
  | cons m rest ih =>
    simp only [List.foldl_cons]
    rw [ih, getElem?_processMatch]
    cases h : L[i]? <;> simp [h]

theorem foldl_processMatch_init (ms : List Match) (T : ℕ)
    (adj_points adj_goals adj_goals_against adj_goal_diff : Option (List ℤ)) :
    ms.foldl processMatch
        ((List.range T).map (initStanding adj_points adj_goals adj_goals_against adj_goal_diff)) =
      (List.range T).map
        (fun i => teamStats adj_points adj_goals adj_goals_against adj_goal_diff i ms) := by
  apply List.ext_getElem?
  intro i
  rw [getElem?_foldl_processMatch, List.getElem?_map, List.getElem?_map]
  by_cases h : i < T
  · simp [List.getElem?_range, h, teamStats]
  · have hnone : (List.range T)[i]? = none := by
      rw [List.getElem?_eq_none]
      simpa using Nat.le_of_not_lt h
    simp [hnone]

theorem foldl_cond_preserve {β : Type} (g : TeamStanding → β) (i : ℕ)
    (ops : List (ℕ × (TeamStanding → TeamStanding)))
    (h : ∀ op ∈ ops, ∀ s, g (op.2 s) = g s) :
    ∀ s, g (ops.foldl (fun s op => if op.1 = i then op.2 s else s) s) = g s := by
  induction ops with
  | nil => intro s; rfl
  | cons op rest ih =>
    intro s
    simp only [List.foldl_cons]
    rw [ih (fun o ho => h o (List.mem_cons_of_mem _ ho))]
    by_cases hc : op.1 = i <;> simp [hc, h op (List.mem_cons_self _ _)]

theorem matchOps_team_id (m : Match) (gh ga : ℤ) :
    ∀ op ∈ matchOps m gh ga, ∀ s, (op.2 s).team_id = s.team_id := by
  intro op hop s
  simp only [matchOps, List.mem_append, List.mem_cons, List.not_mem_nil, or_false] at hop
  rcases hop with h | h
  · rcases h with rfl | rfl | rfl | rfl | rfl | rfl <;> rfl
  · split_ifs at h <;>
      simp only [List.mem_cons, List.not_mem_nil, or_false] at h <;>
      rcases h with rfl | rfl <;> rfl

theorem teamStep_team_id (i : ℕ) (s : TeamStanding) (m : Match) :
    (teamStep i s m).team_id = s.team_id := by
  unfold teamStep
  cases hg : m.goals_home with
  | none => rfl
  | some gh =>
    cases ha : m.goals_away with
    | none => rfl
    | some ga => exact foldl_cond_preserve (fun s => s.team_id) i _ (matchOps_team_id m gh ga) s

theorem foldl_teamStep_team_id (i : ℕ) (ms : List Match) :
    ∀ s : TeamStanding, (ms.foldl (teamStep i) s).team_id = s.team_id := by
  induction ms with
  | nil => intro s; rfl
  | cons m rest ih =>
    intro s
    simp only [List.foldl_cons]
    rw [ih, teamStep_team_id]

theorem teamStats_team_id (adj_points adj_goals adj_goals_against adj_goal_diff : Option (List ℤ))
    (i : ℕ) (ms : List Match) :
    (teamStats adj_points adj_goals adj_goals_against adj_goal_diff i ms).team_id = i := by
  unfold teamStats
  rw [foldl_teamStep_team_id]
  rfl

theorem teamStep_gdInv (i : ℕ) (s : TeamStanding) (m : Match) :
    gdInv (teamStep i s m) = gdInv s := by
  unfold teamStep
  cases hg : m.goals_home with
  | none => rfl
  | some gh =>
    cases ha : m.goals_away with
    | none => rfl
    | some ga =>
      show gdInv ((matchOps m gh ga).foldl _ s) = gdInv s
      unfold matchOps
      rw [List.foldl_append]
      rw [foldl_cond_preserve gdInv i _ ?_]
      · simp only [List.foldl_cons, List.foldl_nil]
        by_cases h1 : m.team_home = i <;> by_cases h2 : m.team_away = i <;>
          simp [h1, h2, gdInv] <;> ring
      · intro op hop s'
        split_ifs at hop <;>
          simp only [List.mem_cons, List.not_mem_nil, or_false] at hop <;>
          rcases hop with rfl | rfl <;> simp [gdInv]

theorem foldl_teamStep_gdInv (i : ℕ) (ms : List Match) :
    ∀ s : TeamStanding, gdInv (ms.foldl (teamStep i) s) = gdInv s := by
  induction ms with
  | nil => intro s; rfl
  | cons m rest ih =>
    intro s
    simp only [List.foldl_cons]
    rw [ih, teamStep_gdInv]

theorem assignPositions_map_erasePos (n : ℕ) (l : List TeamStanding) :
    (assignPositions n l).map erasePos = l.map erasePos := by
  induction l generalizing n with
  | nil => rfl
  | cons x xs ih => simp [assignPositions, erasePos, ih]

theorem assignPositions_map_position (n : ℕ) (l : List TeamStanding) :
    (assignPositions n l).map (fun s => s.position) = List.range' n l.length := by
  induction l generalizing n with
  | nil => rfl
  | cons x xs ih => simp [assignPositions, List.range', ih]

theorem assignPositions_map_team_id (n : ℕ) (l : List TeamStanding) :
    (assignPositions n l).map (fun s => s.team_id) = l.map (fun s => s.team_id) := by
  induction l generalizing n with
  | nil => rfl
  | cons x xs ih => simp [assignPositions, ih]

theorem mem_assignPositions {y : TeamStanding} (n : ℕ) (l : List TeamStanding)
    (hy : y ∈ assignPositions n l) : ∃ x ∈ l, ∃ k, y = { x with position := k } := by
  induction l generalizing n with
  | nil => simp [assignPositions] at hy
  | cons x xs ih =>
    rcases List.mem_cons.mp hy with h | h
    · exact ⟨x, List.mem_cons_self _ _, n, h⟩
    · rcases ih (n + 1) h with ⟨x', hx', k, rfl⟩
      exact ⟨x', List.mem_cons_of_mem _ hx', k, rfl⟩

theorem pairwise_assignPositions {R : TeamStanding → TeamStanding → Prop}
    (hR : ∀ (a b : TeamStanding) (n m : ℕ),
      R a b → R { a with position := n } { b with position := m }) :
    ∀ (n : ℕ) (l : List TeamStanding), l.Pairwise R → (assignPositions n l).Pairwise R := by
  intro n l
  induction l generalizing n with
  | nil => intro _; exact List.Pairwise.nil
  | cons x xs ih =>
    intro hp
    rcases List.pairwise_cons.mp hp with ⟨hx, hxs⟩
    refine List.pairwise_cons.mpr ⟨?_, ih (n + 1) hxs⟩
    intro y hy
    rcases mem_assignPositions (n + 1) xs hy with ⟨y', hy', k, rfl⟩
    exact hR x y' n k (hx y' hy')

theorem orderedInsert_pairwise_sb (x : TeamStanding) :
    ∀ L : List TeamStanding, L.Pairwise standingBefore →
      (∀ b ∈ L, x.team_id < b.team_id) →
      (List.orderedInsert tableLe x L).Pairwise standingBefore := by
  intro L
  induction L with
  | nil => intro _ _; simp [List.orderedInsert]
  | cons b L ih =>
    intro hp hid
    rcases List.pairwise_cons.mp hp with ⟨hb, hL⟩
    by_cases hle : tableLe x b
    · rw [List.orderedInsert, if_pos hle]
      refine List.pairwise_cons.mpr ⟨?_, hp⟩
      intro y hy
      rcases List.mem_cons.mp hy with rfl | hyL
      · have h1 := hid y (List.mem_cons_self _ _)
        simp only [tableLe] at hle
        simp only [standingBefore]
        omega
      · have h1 := hid y (List.mem_cons_of_mem _ hyL)
        have h2 := hb y hyL
        simp only [tableLe] at hle
        simp only [standingBefore] at h2 ⊢
        omega
    · rw [List.orderedInsert, if_neg hle]
      refine List.pairwise_cons.mpr
        ⟨?_, ih hL (fun c hc => hid c (List.mem_cons_of_mem _ hc))⟩
      intro y hy
      rcases (List.mem_orderedInsert tableLe).mp hy with rfl | hyL
      · simp only [tableLe] at hle
        simp only [standingBefore]
        omega
      · exact hb y hyL

theorem insertionSort_pairwise_sb :
    ∀ l : List TeamStanding, l.Pairwise (fun a b => a.team_id < b.team_id) →
      (List.insertionSort tableLe l).Pairwise standingBefore := by
  intro l
  induction l with
  | nil => intro _; exact List.Pairwise.nil
  | cons x xs ih =>
    intro hp
    rcases List.pairwise_cons.mp hp with ⟨hx, hxs⟩
    simp only [List.insertionSort]
    refine orderedInsert_pairwise_sb x _ (ih hxs) ?_
    intro b hb
    exact hx b ((List.perm_insertionSort tableLe xs).mem_iff.mp hb)

theorem processed_pairwise_team_id (ms : List Match) (T : ℕ)
    (adj_points adj_goals adj_goals_against adj_goal_diff : Option (List ℤ)) :
    (ms.foldl processMatch
      ((List.range T).map (initStanding adj_points adj_goals adj_goals_against adj_goal_diff))
        ).Pairwise (fun a b => a.team_id < b.team_id) := by
  rw [foldl_processMatch_init]
  refine List.pairwise_map.mpr ?_
  refine (List.pairwise_lt_range T).imp ?_
  intro a b hab
  simpa [teamStats_team_id] using hab

theorem posUpdate_team_id (s : TeamStanding) (k : ℕ) :
    ({ s with position := k }).team_id = s.team_id := rfl

theorem posUpdate_goals_for (s : TeamStanding) (k : ℕ) :
    ({ s with position := k }).goals_for = s.goals_for := rfl

theorem posUpdate_goals_against (s : TeamStanding) (k : ℕ) :
    ({ s with position := k }).goals_against = s.goals_against := rfl

theorem posUpdate_goal_difference (s : TeamStanding) (k : ℕ) :
    ({ s with position := k }).goal_difference = s.goal_difference := rfl

theorem length_assignPositions (n : ℕ) (l : List TeamStanding) :
    (assignPositions n l).length = l.length := by
  induction l generalizing n with
  | nil => rfl
  | cons x xs ih => simp [assignPositions, ih]

theorem processMatch_incomplete (L : List TeamStanding) (m : Match)
    (h : ¬ (m.goals_home.isSome ∧ m.goals_away.isSome)) : processMatch L m = L := by
  cases hg : m.goals_home with
  | none => cases ha : m.goals_away <;> simp [processMatch, hg, ha]
  | some gh =>
    cases ha : m.goals_away with
    | none => simp [processMatch, hg, ha]
    | some ga => exact absurd (by simp [hg, ha]) h

theorem sorted_length (ms : List Match) (T : ℕ)
    (adj_points adj_goals adj_goals_against adj_goal_diff : Option (List ℤ)) :
    (List.insertionSort tableLe
      (ms.foldl processMatch ((List.range T).map
        (initStanding adj_points adj_goals adj_goals_against adj_goal_diff)))).length = T := by
  rw [(List.perm_insertionSort tableLe _).length_eq,
    foldl_processMatch_init, List.length_map, List.length_range]

theorem sorted_map_team_id_perm (ms : List Match) (T : ℕ)
    (adj_points adj_goals adj_goals_against adj_goal_diff : Option (List ℤ)) :
    List.Perm
      ((List.insertionSort tableLe
        (ms.foldl processMatch ((List.range T).map
          (initStanding adj_points adj_goals adj_goals_against adj_goal_diff)))).map
            (fun s => s.team_id))
      (List.range T) := by
  have h1 : List.Perm
      ((List.insertionSort tableLe
        (ms.foldl processMatch ((List.range T).map
          (initStanding adj_points adj_goals adj_goals_against adj_goal_diff)))).map
            (fun s => s.team_id))
      ((ms.foldl processMatch ((List.range T).map
        (initStanding adj_points adj_goals adj_goals_against adj_goal_diff))).map
          (fun s => s.team_id)) :=
    (List.perm_insertionSort tableLe _).map _
  refine h1.trans ?_
  rw [foldl_processMatch_init]
  have h2 : ∀ l : List ℕ,
      ((l.map (fun i => teamStats adj_points adj_goals adj_goals_against adj_goal_diff i ms)).map
        (fun s => s.team_id)) = l := by
    intro l
    induction l with
    | nil => rfl
    | cons a l ih => simp [teamStats_team_id, ih]
  rw [h2]

theorem calculate_table_perm_core (ms : List Match) (T : ℕ)
    (adj_points adj_goals adj_goals_against adj_goal_diff : Option (List ℤ)) :
    (calculate_table ms T adj_points adj_goals adj_goals_against adj_goal_diff
        ).standings.length = T ∧
    List.Perm
      ((calculate_table ms T adj_points adj_goals adj_goals_against adj_goal_diff
          ).standings.map (fun s => s.team_id))
      (List.range T) ∧
    (calculate_table ms T adj_points adj_goals adj_goals_against adj_goal_diff
        ).standings.map (fun s => s.position) = List.range' 1 T := by
  refine ⟨?_, ?_, ?_⟩
  · simp only [calculate_table]
    rw [length_assignPositions, sorted_length]
  · simp only [calculate_table]
    rw [assignPositions_map_team_id]
    exact sorted_map_team_id_perm ms T adj_points adj_goals adj_goals_against adj_goal_diff
  · simp only [calculate_table]
    rw [assignPositions_map_position, sorted_length]

/-- C9: for every match list, team count and adjustment vectors, the table
returned by `calculate_table` contains exactly `T` standings; their team ids
are a permutation of `[0, T)` and their positions are exactly `1, …, T` in
table order. -/
theorem calculate_table_is_permutation (ms : List Match) (T : ℕ)
    (adj_points adj_goals adj_goals_against adj_goal_diff : Option (List ℤ)) :
    (calculate_table ms T adj_points adj_goals adj_goals_against adj_goal_diff
        ).standings.length = T ∧
    List.Perm
      ((calculate_table ms T adj_points adj_goals adj_goals_against adj_goal_diff
          ).standings.map (fun s => s.team_id))
      (List.range T) ∧
    (calculate_table ms T adj_points adj_goals adj_goals_against adj_goal_diff
        ).standings.map (fun s => s.position) = List.range' 1 T :=
  calculate_table_perm_core ms T adj_points adj_goals adj_goals_against adj_goal_diff

/-- C5: for every fully populated match list, the standings of
`calculate_table` are ordered by points descending, then goal difference
descending, then goals for descending, with all remaining ties broken by
team index ascending (the stable sort of the index-ascending initial order),
and positions `1, …, T` are assigned in that order. -/
theorem calculate_table_sort_order (ms : List Match) (T : ℕ)
    (adj_points adj_goals adj_goals_against adj_goal_diff : Option (List ℤ))
    (_hfull : ∀ m ∈ ms, m.goals_home.isSome ∧ m.goals_away.isSome) :
    (calculate_table ms T adj_points adj_goals adj_goals_against adj_goal_diff
        ).standings.Pairwise standingBefore ∧
    (calculate_table ms T adj_points adj_goals adj_goals_against adj_goal_diff
        ).standings.map (fun s => s.position) = List.range' 1 T := by
  refine ⟨?_, ?_⟩
  · simp only [calculate_table]
    refine pairwise_assignPositions (fun a b n m h => h) 1 _ ?_
    exact insertionSort_pairwise_sb _
      (processed_pairwise_team_id ms T adj_points adj_goals adj_goals_against adj_goal_diff)
  · simp only [calculate_table]
    rw [assignPositions_map_position, sorted_length]

/-- Witness for C5 at the concrete scenario of §8-S3 of the specification. -/
theorem calculate_table_sort_order_witness :
    (∀ m ∈ [(⟨0, 1, some 2, some 1⟩ : Match), ⟨1, 2, some 3, some 1⟩, ⟨2, 0, some 0, some 0⟩],
      m.goals_home.isSome ∧ m.goals_away.isSome) ∧
    ((calculate_table [⟨0, 1, some 2, some 1⟩, ⟨1, 2, some 3, some 1⟩, ⟨2, 0, some 0, some 0⟩]
        3 none none none none).standings.Pairwise standingBefore ∧
      (calculate_table [⟨0, 1, some 2, some 1⟩, ⟨1, 2, some 3, some 1⟩, ⟨2, 0, some 0, some 0⟩]
        3 none none none none).standings.map (fun s => s.position) = List.range' 1 3) :=
  ⟨by decide,
   calculate_table_sort_order
     [⟨0, 1, some 2, some 1⟩, ⟨1, 2, some 3, some 1⟩, ⟨2, 0, some 0, some 0⟩]
     3 none none none none (by decide)⟩

/-- C10: a match missing either goal field is silently skipped by
`calculate_table`: deleting it from the match list does not change the
resulting table at all. -/
theorem calculate_table_skips_incomplete (ms1 ms2 : List Match) (m : Match) (T : ℕ)
    (adj_points adj_goals adj_goals_against adj_goal_diff : Option (List ℤ))
    (h : ¬ (m.goals_home.isSome ∧ m.goals_away.isSome)) :
    calculate_table (ms1 ++ m :: ms2) T adj_points adj_goals adj_goals_against adj_goal_diff =
      calculate_table (ms1 ++ ms2) T adj_points adj_goals adj_goals_against adj_goal_diff := by
  simp only [calculate_table, List.foldl_append, List.foldl_cons]
  rw [processMatch_incomplete _ m h]

/-- Witness for C10: a half-specified match (home goals set, away goals
missing) contributes nothing to the table. -/
theorem calculate_table_skips_incomplete_witness :
    (¬ (((⟨0, 1, some 2, none⟩ : Match)).goals_home.isSome ∧
        ((⟨0, 1, some 2, none⟩ : Match)).goals_away.isSome)) ∧
    calculate_table ([] ++ (⟨0, 1, some 2, none⟩ : Match) :: []) 2 none none none none =
      calculate_table ([] ++ []) 2 none none none none :=
  ⟨by decide, calculate_table_skips_incomplete [] [] ⟨0, 1, some 2, none⟩ 2
    none none none none (by decide)⟩

/-- C7 (amended): with no `adj_goal_diff` vector, each team's
`goal_difference` equals `goals_for − goals_against` shifted by the
goals-for/goals-against adjustment seeds: the seeds enter `goals_for` and
`goals_against` but not `goal_difference`. -/
theorem goal_difference_formula (ms : List Match) (T : ℕ)
    (adj_points adj_goals adj_goals_against : Option (List ℤ)) :
    ∀ s ∈ (calculate_table ms T adj_points adj_goals adj_goals_against none).standings,
      s.goal_difference = s.goals_for - s.goals_against
        - (adj_goals.map (fun a => a.getD s.team_id 0)).getD 0
        + (adj_goals_against.map (fun a => a.getD s.team_id 0)).getD 0 := by
  intro s hs
  simp only [calculate_table] at hs
  rcases mem_assignPositions 1 _ hs with ⟨s', hs', k, rfl⟩
  have hs'' : s' ∈ ms.foldl processMatch
      ((List.range T).map (initStanding adj_points adj_goals adj_goals_against none)) :=
    (List.perm_insertionSort tableLe _).mem_iff.mp hs'
  rw [foldl_processMatch_init] at hs''
  rcases List.mem_map.mp hs'' with ⟨i, _, rfl⟩
  have h1 : gdInv (teamStats adj_points adj_goals adj_goals_against none i ms) =
      gdInv (initStanding adj_points adj_goals adj_goals_against none i) :=
    foldl_teamStep_gdInv i ms _
  have h2 := teamStats_team_id adj_points adj_goals adj_goals_against none i ms
  simp only [gdInv, initStanding] at h1
  have h3 : ((none : Option (List ℤ)).map (fun a => a.getD i 0)).getD 0 = (0 : ℤ) := rfl
  rw [h3] at h1
  simp only [posUpdate_team_id, posUpdate_goals_for, posUpdate_goals_against,
    posUpdate_goal_difference, h2]
  omega

/-- Counterexample to C7 as stated: with `adj_goals = [1]`, no matches and a
single team, the table has `goals_for = 1`, `goals_against = 0` but
`goal_difference = 0 ≠ 1`. -/
theorem goal_difference_cex :
    ¬ (∀ s ∈ (calculate_table [] 1 none (some [1]) none none).standings,
        s.goal_difference = s.goals_for - s.goals_against) := by
  decide

/-- Witness for the amended C7 on the counterexample input. -/
theorem goal_difference_formula_witness :
    (⟨0, 0, 0, 0, 0, 1, 0, 0, 0, 1⟩ : TeamStanding)
        ∈ (calculate_table [] 1 none (some [1]) none none).standings ∧
    (⟨0, 0, 0, 0, 0, 1, 0, 0, 0, 1⟩ : TeamStanding).goal_difference =
      (⟨0, 0, 0, 0, 0, 1, 0, 0, 0, 1⟩ : TeamStanding).goals_for -
        (⟨0, 0, 0, 0, 0, 1, 0, 0, 0, 1⟩ : TeamStanding).goals_against -
        ((some [1] : Option (List ℤ)).map
          (fun a => a.getD (⟨0, 0, 0, 0, 0, 1, 0, 0, 0, 1⟩ : TeamStanding).team_id 0)).getD 0 +
        ((none : Option (List ℤ)).map
          (fun a => a.getD (⟨0, 0, 0, 0, 0, 1, 0, 0, 0, 1⟩ : TeamStanding).team_id 0)).getD 0 :=
  ⟨by decide, goal_difference_formula [] 1 none (some [1]) none _ (by decide)⟩

theorem sign_as_indicator (g : ℤ) :
    ((if 0 < g then (1 : ℤ) else 0) - (if g < 0 then 1 else 0)) = Int.sign g := by
  rcases lt_trichotomy g 0 with h | h | h
  · rw [if_neg (by omega), if_pos h, Int.sign_eq_neg_one_iff_neg.mpr h]
    omega
  · simp [h]
  · rw [if_pos h, if_neg (by omega), Int.sign_eq_one_iff_pos.mpr h]
    omega

/-- C3: `calculate_elo_change` computes exactly the update of §4.1 of the
specification: clamped inverted delta, `p_home = 1/(1+10^(delta/400))`,
result score `(sgn(goal_diff)+1)/2`, weight `sqrt(max(1,|goal_diff|))`,
shift `(r − p_home)·weight·mod_factor`, returning
`(elo_home + shift, elo_away − shift, goals, p_home)`. -/
theorem calculate_elo_change_formula (params : EloParams) :
    calculate_elo_change params = elo_update_spec params := by
  simp only [calculate_elo_change, elo_update_spec]
  rw [max_comm (|params.goals_home - params.goals_away|) 1,
    sign_as_indicator (params.goals_home - params.goals_away)]

/-- C4: the two rating shifts of `calculate_elo_change` cancel exactly, so
the total rating mass `elo_home + elo_away` is conserved. -/
theorem calculate_elo_change_conservation (params : EloParams) :
    ((calculate_elo_change params).new_elo_home - params.elo_home) +
      ((calculate_elo_change params).new_elo_away - params.elo_away) = 0 := by
  simp only [calculate_elo_change]
  ring

theorem poissonCDF_mono (lam : ℝ) (hlam : 0 ≤ lam) : Monotone (poissonCDF lam) := by
  apply monotone_nat_of_le_succ
  intro k
  unfold poissonCDF
  rw [Finset.sum_range_succ (fun i => lam ^ i / (Nat.factorial i)) (k + 1)]
  have h1 : 0 ≤ lam ^ (k + 1) / (Nat.factorial (k + 1)) := by positivity
  have h2 : (0 : ℝ) < Real.exp (-lam) := Real.exp_pos _
  nlinarith

theorem pqSearch_least (lam p : ℝ) (hmono : Monotone (poissonCDF lam)) :
    ∀ (fuel low high : ℕ), high - low ≤ fuel → low ≤ high →
      (∀ j, j < low → poissonCDF lam j < p) → p ≤ poissonCDF lam high →
      p ≤ poissonCDF lam (pqSearch lam p low high) ∧
        ∀ j, j < pqSearch lam p low high → poissonCDF lam j < p := by
  intro fuel
  induction fuel with
  | zero =>
    intro low high hf hlh hlow hhigh
    have heq : low = high := by omega
    rw [pqSearch, dif_neg (by omega)]
    subst heq
    exact ⟨hhigh, hlow⟩
  | succ n ih =>
    intro low high hf hlh hlow hhigh
    by_cases hlt : low < high
    · rw [pqSearch, dif_pos hlt]
      simp only []
      by_cases hc : poissonCDF lam ((low + high) / 2) < p
      · rw [if_pos hc]
        refine ih ((low + high) / 2 + 1) high (by omega) (by omega) ?_ hhigh
        intro j hj
        exact lt_of_le_of_lt (hmono (by omega)) hc
      · rw [if_neg hc]
        exact ih low ((low + high) / 2) (by omega) (by omega) hlow (not_lt.mp hc)
    · have heq : low = high := by omega
      rw [pqSearch, dif_neg hlt]
      subst heq
      exact ⟨hhigh, hlow⟩

theorem pqSearch_stuck (lam p : ℝ) :
    ∀ (fuel low high : ℕ), high - low ≤ fuel → low ≤ high →
      (∀ j, low ≤ j → j ≤ high → poissonCDF lam j < p) →
      pqSearch lam p low high = high := by
  intro fuel
  induction fuel with
  | zero =>
    intro low high hf hlh hall
    have heq : low = high := by omega
    rw [pqSearch, dif_neg (by omega), heq]
  | succ n ih =>
    intro low high hf hlh hall
    by_cases hlt : low < high
    · rw [pqSearch, dif_pos hlt]
      simp only []
      rw [if_pos (hall ((low + high) / 2) (by omega) (by omega))]
      exact ih ((low + high) / 2 + 1) high (by omega) (by omega)
        (fun j h1 h2 => hall j (by omega) h2)
    · have heq : low = high := by omega
      rw [pqSearch, dif_neg hlt, heq]

/-- C1 (amended): for `p ≤ 0` the quantile is `0`; for `p ≥ 1` it is `+∞`;
and for `0 < p < 1`, whenever `p` does not exceed the Poisson CDF at the
search cap `⌊3λ + 20⌋`, the function returns the smallest non-negative
integer `k` with `CDF(k; λ) ≥ p` (non-strict comparison).  Beyond the cap
(see the counterexample) the clipped binary search cannot reach the true
quantile. -/
theorem poisson_quantile_statrs_spec (p lam : ℝ) (hlam : 0 < lam) :
    (p ≤ 0 → poisson_quantile_statrs p lam = ((0 : ℕ) : WithTop ℕ)) ∧
    (1 ≤ p → poisson_quantile_statrs p lam = ⊤) ∧
    (0 < p → p < 1 → p ≤ poissonCDF lam (Nat.floor (lam * 3 + 20)) →
      ∃ k : ℕ, poisson_quantile_statrs p lam = (k : WithTop ℕ) ∧
        IsLeast {n : ℕ | p ≤ poissonCDF lam n} k) := by
  refine ⟨?_, ?_, ?_⟩
  · intro hp
    rw [poisson_quantile_statrs, if_pos hp]
  · intro hp
    rw [poisson_quantile_statrs, if_neg (by linarith), if_pos hp]
  · intro hp0 hp1 hcap
    rw [poisson_quantile_statrs, if_neg (by linarith), if_neg (by linarith)]
    refine ⟨pqSearch lam p 0 (Nat.floor (lam * 3 + 20)), rfl, ?_, ?_⟩
    · exact (pqSearch_least lam p (poissonCDF_mono lam hlam.le)
        (Nat.floor (lam * 3 + 20)) 0 _ (by omega) (by omega) (by omega) hcap).1
    · intro b hb
      by_contra hcontra
      have hlt := (pqSearch_least lam p (poissonCDF_mono lam hlam.le)
        (Nat.floor (lam * 3 + 20)) 0 _ (by omega) (by omega) (by omega) hcap).2 b
        (by omega)
      exact absurd hb (not_le.mpr hlt)

theorem poissonCDF_le_one_sub (lam : ℝ) (hlam : 0 ≤ lam) (k : ℕ) :
    poissonCDF lam k ≤ 1 - Real.exp (-lam) * (lam ^ (k + 1) / (Nat.factorial (k + 1))) := by
  unfold poissonCDF
  have hsum := Real.sum_le_exp_of_nonneg hlam (k + 2)
  rw [Finset.sum_range_succ] at hsum
  have hE : Real.exp (-lam) * Real.exp lam = 1 := by
    rw [← Real.exp_add]
    simp
  have hEpos : (0 : ℝ) < Real.exp (-lam) := Real.exp_pos _
  nlinarith [mul_le_mul_of_nonneg_left hsum hEpos.le]

theorem poissonCDF_cex_bound : poissonCDF (1/1000) 20 < 1 - (1/10 : ℝ) ^ 84 := by
  have h1 := poissonCDF_le_one_sub (1/1000) (by norm_num) 20
  have h2 : (999/1000 : ℝ) ≤ Real.exp (-(1/1000 : ℝ)) := by
    have h := Real.add_one_le_exp (-(1/1000) : ℝ)
    linarith
  have h5 : (0 : ℝ) ≤ (1/1000 : ℝ) ^ 21 / ((Nat.factorial 21 : ℕ) : ℝ) := by positivity
  have h6 : (999/1000 : ℝ) * ((1/1000 : ℝ) ^ 21 / ((Nat.factorial 21 : ℕ) : ℝ))
      ≤ Real.exp (-(1/1000 : ℝ)) * ((1/1000 : ℝ) ^ 21 / ((Nat.factorial 21 : ℕ) : ℝ)) :=
    mul_le_mul_of_nonneg_right h2 h5
  have h3 : ((Nat.factorial 21 : ℕ) : ℝ) = 51090942171709440000 := by
    norm_num [Nat.factorial]
  rw [h3] at h6
  have h4 : (1/10 : ℝ) ^ 84 < (999/1000 : ℝ) * ((1/1000 : ℝ) ^ 21 / 51090942171709440000) := by
    norm_num
  norm_num [h3] at h1
  norm_num at h6 ⊢
  linarith

theorem floor_cex : Nat.floor ((1/1000 : ℝ) * 3 + 20) = 20 := by
  have h : ((20 : ℕ) : ℝ) ≤ (1/1000 : ℝ) * 3 + 20 ∧ (1/1000 : ℝ) * 3 + 20 < (20 : ℕ) + 1 := by
    constructor <;> norm_num
  exact (Nat.floor_eq_iff (by norm_num)).mpr h

/-- Counterexample to C1 as stated: at `λ = 1/1000` the search cap is
`⌊3λ + 20⌋ = 20`, but `CDF(20; 1/1000) < 1 − 10⁻⁸⁴`, so at
`p = 1 − 10⁻⁸⁴ ∈ (0,1)` the clipped binary search returns `20`, which does
not satisfy `CDF(k) ≥ p` and hence is not the smallest such integer. -/
theorem poisson_quantile_statrs_cex :
    ¬ ∃ k : ℕ, poisson_quantile_statrs (1 - (1/10 : ℝ) ^ 84) (1/1000) = (k : WithTop ℕ) ∧
      IsLeast {n : ℕ | (1 - (1/10 : ℝ) ^ 84) ≤ poissonCDF (1/1000) n} k := by
  rintro ⟨k, hk, hmem, -⟩
  have hmono : Monotone (poissonCDF (1/1000)) := poissonCDF_mono _ (by norm_num)
  have hbound := poissonCDF_cex_bound
  have hstuck : pqSearch (1/1000) (1 - (1/10 : ℝ) ^ 84) 0 20 = 20 := by
    refine pqSearch_stuck _ _ 20 0 20 (by omega) (by omega) ?_
    intro j _ h2
    exact lt_of_le_of_lt (hmono h2) hbound
  have hval : poisson_quantile_statrs (1 - (1/10 : ℝ) ^ 84) (1/1000) = ((20 : ℕ) : WithTop ℕ) := by
    rw [poisson_quantile_statrs, if_neg (by norm_num), if_neg (by norm_num), floor_cex, hstuck]
  rw [hval] at hk
  have hkeq : k = 20 := by exact_mod_cast hk.symm
  subst hkeq
  simp only [Set.mem_setOf_eq] at hmem
  linarith

/-- Witness for the amended C1: at `p = 1/4`, `λ = 1` all hypotheses hold
(`CDF(⌊3λ+20⌋) ≥ e⁻¹ ≥ 1/4`) and the returned value is the least `k` with
`CDF(k) ≥ 1/4`. -/
theorem poisson_quantile_statrs_spec_witness :
    (0 : ℝ) < 1/4 ∧ (1/4 : ℝ) < 1 ∧ (0 : ℝ) < 1 ∧
    (1/4 : ℝ) ≤ poissonCDF 1 (Nat.floor ((1 : ℝ) * 3 + 20)) ∧
    ∃ k : ℕ, poisson_quantile_statrs (1/4) 1 = (k : WithTop ℕ) ∧
      IsLeast {n : ℕ | (1/4 : ℝ) ≤ poissonCDF 1 n} k := by
  have hcap : (1/4 : ℝ) ≤ poissonCDF 1 (Nat.floor ((1 : ℝ) * 3 + 20)) := by
    have h0 : poissonCDF 1 0 ≤ poissonCDF 1 (Nat.floor ((1 : ℝ) * 3 + 20)) :=
      poissonCDF_mono 1 (by norm_num) (Nat.zero_le _)
    have h1 : poissonCDF 1 0 = Real.exp (-1) := by
      simp [poissonCDF, Nat.factorial]
    have h2 : (1/4 : ℝ) ≤ Real.exp (-1) := by
      rw [Real.exp_neg]
      have h3 : Real.exp 1 < 2.7182818286 := Real.exp_one_lt_d9
      have h4 : (0 : ℝ) < Real.exp 1 := Real.exp_pos 1
      rw [le_inv_comm₀ (by norm_num) h4]
      linarith
    have h5 : (1/4 : ℝ) ≤ poissonCDF 1 0 := by
      rw [h1]
      exact h2
    exact le_trans h5 h0
  exact ⟨by norm_num, by norm_num, by norm_num, hcap,
    (poisson_quantile_statrs_spec (1/4) 1 (by norm_num)).2.2 (by norm_num) (by norm_num) hcap⟩

theorem simSeasonGo_forall2 (mod_factor home_advantage tore_slope tore_intercept : ℝ)
    (rng : ℕ → ℝ) :
    ∀ (ms : List Match) (elos : List ℝ) (n : ℕ),
      (∀ m ∈ ms, m.goals_home.isSome → m.goals_away.isSome) →
      List.Forall₂
        (fun out inp =>
          out.team_home = inp.team_home ∧ out.team_away = inp.team_away ∧
          out.goals_home.isSome ∧ out.goals_away.isSome ∧
          (inp.goals_home.isSome →
            out.goals_home = inp.goals_home ∧ out.goals_away = inp.goals_away))
        (simSeasonGo mod_factor home_advantage tore_slope tore_intercept rng ms elos n).1
        ms := by
  intro ms
  induction ms with
  | nil =>
    intro elos n _
    simp [simSeasonGo]
  | cons m ms ih =>
    intro elos n hwf
    by_cases hm : m.goals_home = none
    · rw [simSeasonGo, if_pos hm]
      refine List.Forall₂.cons ⟨rfl, rfl, by simp, by simp, ?_⟩
        (ih _ _ (fun x hx => hwf x (List.mem_cons_of_mem _ hx)))
      intro hsome
      rw [hm] at hsome
      simp at hsome
    · rw [simSeasonGo, if_neg hm]
      have hsome : m.goals_home.isSome := Option.ne_none_iff_isSome.mp hm
      exact List.Forall₂.cons ⟨rfl, rfl, hsome, hwf m (List.mem_cons_self _ _) hsome,
        fun _ => ⟨rfl, rfl⟩⟩ (ih _ _ (fun x hx => hwf x (List.mem_cons_of_mem _ hx)))

theorem simSeasonGo_pairings (mod_factor home_advantage tore_slope tore_intercept : ℝ)
    (rng : ℕ → ℝ) :
    ∀ (ms : List Match) (elos : List ℝ) (n : ℕ),
      List.Forall₂
        (fun out inp => out.team_home = inp.team_home ∧ out.team_away = inp.team_away)
        (simSeasonGo mod_factor home_advantage tore_slope tore_intercept rng ms elos n).1
        ms := by
  intro ms
  induction ms with
  | nil =>
    intro elos n
    simp [simSeasonGo]
  | cons m ms ih =>
    intro elos n
    by_cases hm : m.goals_home = none
    · rw [simSeasonGo, if_pos hm]
      exact List.Forall₂.cons ⟨rfl, rfl⟩ (ih _ _)
    · rw [simSeasonGo, if_neg hm]
      exact List.Forall₂.cons ⟨rfl, rfl⟩ (ih _ _)

/-- C8: on a well-formed season (no match with home goals but missing away
goals, which would panic in the source), `simulate_season` returns a match
list of the same length with the same home/away pairings, in which every
match has both goal fields present; matches that already had goals keep
exactly their stored goals.  The input season is not mutated: the source
clones both fields, and the functional model is read-only by construction. -/
theorem simulate_season_frame (season : Season)
    (mod_factor home_advantage tore_slope tore_intercept : ℝ) (rng : ℕ → ℝ)
    (hwf : ∀ m ∈ season.matchList, m.goals_home.isSome → m.goals_away.isSome) :
    (simulate_season season mod_factor home_advantage tore_slope tore_intercept rng).1.length
        = season.matchList.length ∧
    List.Forall₂
      (fun out inp =>
        out.team_home = inp.team_home ∧ out.team_away = inp.team_away ∧
        out.goals_home.isSome ∧ out.goals_away.isSome ∧
        (inp.goals_home.isSome →
          out.goals_home = inp.goals_home ∧ out.goals_away = inp.goals_away))
      (simulate_season season mod_factor home_advantage tore_slope tore_intercept rng).1
      season.matchList := by
  have h := simSeasonGo_forall2 mod_factor home_advantage tore_slope tore_intercept rng
    season.matchList season.team_elos 0 hwf
  exact ⟨h.length_eq, h⟩

/-- Witness for C8: a two-team season with one played and one unplayed
match. -/
theorem simulate_season_frame_witness :
    (∀ m ∈ (⟨[⟨0, 1, some 2, some 1⟩, ⟨1, 0, none, none⟩], [1500, 1600], 2⟩ :
        Season).matchList, m.goals_home.isSome → m.goals_away.isSome) ∧
    ((simulate_season ⟨[⟨0, 1, some 2, some 1⟩, ⟨1, 0, none, none⟩], [1500, 1600], 2⟩
        20 65 1 1 (fun _ => 1/2)).1.length
      = (⟨[⟨0, 1, some 2, some 1⟩, ⟨1, 0, none, none⟩], [1500, 1600], 2⟩ :
          Season).matchList.length ∧
     List.Forall₂
      (fun out inp =>
        out.team_home = inp.team_home ∧ out.team_away = inp.team_away ∧
        out.goals_home.isSome ∧ out.goals_away.isSome ∧
        (inp.goals_home.isSome →
          out.goals_home = inp.goals_home ∧ out.goals_away = inp.goals_away))
      (simulate_season ⟨[⟨0, 1, some 2, some 1⟩, ⟨1, 0, none, none⟩], [1500, 1600], 2⟩
        20 65 1 1 (fun _ => 1/2)).1
      (⟨[⟨0, 1, some 2, some 1⟩, ⟨1, 0, none, none⟩], [1500, 1600], 2⟩ :
          Season).matchList) :=
  ⟨by decide,
   simulate_season_frame ⟨[⟨0, 1, some 2, some 1⟩, ⟨1, 0, none, none⟩], [1500, 1600], 2⟩
     20 65 1 1 (fun _ => 1/2) (by decide)⟩

theorem foldl_recordTrial_perm (f : ℕ → LeagueTable) {l1 l2 : List ℕ}
    (hp : List.Perm l1 l2) :
    ∀ h0 : ℕ → ℕ → ℕ,
      l1.foldl (fun h i => recordTrial h (f i)) h0 =
        l2.foldl (fun h i => recordTrial h (f i)) h0 := by
  induction hp with
  | nil => intro h0; rfl
  | cons x l ih =>
    intro h0
    simp only [List.foldl_cons]
    exact ih _
  | swap x y l =>
    intro h0
    simp only [List.foldl_cons]
    have hcomm : recordTrial (recordTrial h0 (f y)) (f x) =
        recordTrial (recordTrial h0 (f x)) (f y) := by
      funext t p
      simp only [recordTrial]
      omega
    rw [hcomm]
  | trans h1 h2 ih1 ih2 =>
    intro h0
    rw [ih1, ih2]

/-- C2: for a fixed `(Season, Params, N)` and RNG stream family, the
histogram — and hence the probability matrix — produced by
`run_monte_carlo_simulation` does not depend on the order in which the `N`
trials are executed: any scheduling (permutation of the trial indices
`0 … N−1`) tallies to the same histogram, because trial `i` is a pure
function of the index `i` alone (`StdRng::seed_from_u64(i)`) and the
increments of the shared histogram commute. -/
theorem run_monte_carlo_deterministic (stdRng : ℕ → ℕ → ℝ) (season : Season)
    (params : SimulationParams) (sched : List ℕ)
    (hperm : List.Perm sched (List.range params.iterations)) :
    histAfter stdRng season params sched
        = histAfter stdRng season params (List.range params.iterations) ∧
    run_monte_carlo_scheduled stdRng season params sched
        = run_monte_carlo_simulation stdRng season params := by
  have hfold : histAfter stdRng season params sched
      = histAfter stdRng season params (List.range params.iterations) :=
    foldl_recordTrial_perm (trialTable stdRng season params) hperm _
  refine ⟨hfold, ?_⟩
  rw [run_monte_carlo_simulation]
  simp only [run_monte_carlo_scheduled, probMatrix, hfold]

/-- Witness for C2: a two-trial run tallied in reverse order. -/
theorem run_monte_carlo_deterministic_witness :
    List.Perm [1, 0]
      (List.range (⟨20, 65, 2, 1, 1⟩ : SimulationParams).iterations) ∧
    (histAfter (fun _ _ => 1/2) ⟨[], [], 1⟩ ⟨20, 65, 2, 1, 1⟩ [1, 0]
        = histAfter (fun _ _ => 1/2) ⟨[], [], 1⟩ ⟨20, 65, 2, 1, 1⟩
            (List.range (⟨20, 65, 2, 1, 1⟩ : SimulationParams).iterations) ∧
      run_monte_carlo_scheduled (fun _ _ => 1/2) ⟨[], [], 1⟩ ⟨20, 65, 2, 1, 1⟩ [1, 0]
        = run_monte_carlo_simulation (fun _ _ => 1/2) ⟨[], [], 1⟩ ⟨20, 65, 2, 1, 1⟩) :=
  ⟨by decide,
   run_monte_carlo_deterministic (fun _ _ => 1/2) ⟨[], [], 1⟩ ⟨20, 65, 2, 1, 1⟩ [1, 0]
     (by decide)⟩

theorem count_eq_one_of_nodup_mem {α : Type} [BEq α] [LawfulBEq α] {l : List α} {a : α}
    (hn : l.Nodup) (ha : a ∈ l) : l.count a = 1 := by
  induction l with
  | nil => simp at ha
  | cons x xs ih =>
    rcases List.pairwise_cons.mp hn with ⟨hx, hxs⟩
    rcases List.mem_cons.mp ha with rfl | ha'
    · rw [List.count_cons_self]
      have : a ∉ xs := fun hmem => (hx a hmem) rfl
      rw [List.count_eq_zero.mpr this]
    · have hne : a ≠ x := fun h => (hx a ha') h.symm
      rw [List.count_cons_of_ne hne]
      exact ih hxs ha'

theorem count_le_count_map {α β : Type} [BEq α] [LawfulBEq α] [BEq β] [LawfulBEq β]
    (f : α → β) (l : List α) (a : α) : l.count a ≤ (l.map f).count (f a) := by
  induction l with
  | nil => simp
  | cons x xs ih =>
    simp only [List.map_cons]
    by_cases h : x = a
    · subst h
      rw [List.count_cons_self, List.count_cons_self]
      omega
    · rw [List.count_cons_of_ne (Ne.symm h)]
      by_cases h2 : f x = f a
      · rw [h2, List.count_cons_self]
        omega
      · rw [List.count_cons_of_ne (Ne.symm h2)]
        exact ih

theorem two_mem_le_count_map {α β : Type} [BEq α] [LawfulBEq α] [BEq β] [LawfulBEq β]
    (f : α → β) (l : List α) (a b : α) (ha : a ∈ l) (hb : b ∈ l) (hab : a ≠ b)
    (hf : f a = f b) : 2 ≤ (l.map f).count (f a) := by
  induction l with
  | nil => simp at ha
  | cons x xs ih =>
    simp only [List.map_cons]
    rcases List.mem_cons.mp ha with rfl | ha'
    · rcases List.mem_cons.mp hb with rfl | hb'
      · exact absurd rfl hab
      · rw [List.count_cons_self]
        have h1 : f a ∈ xs.map f := by
          rw [hf]
          exact List.mem_map_of_mem f hb'
        have h2 : 1 ≤ (xs.map f).count (f a) := List.count_pos_iff.mpr h1
        omega
    · rcases List.mem_cons.mp hb with rfl | hb'
      · rw [hf, List.count_cons_self]
        have h1 : f b ∈ xs.map f := by
          rw [← hf]
          exact List.mem_map_of_mem f ha'
        have h2 : 1 ≤ (xs.map f).count (f b) := List.count_pos_iff.mpr h1
        omega
      · have h2 := ih ha' hb'
        by_cases h3 : f x = f a
        · rw [h3, List.count_cons_self]
          omega
        · rw [List.count_cons_of_ne (Ne.symm h3)]
          exact h2

theorem pairlist_row_count {pr : List (ℕ × ℕ)} {T : ℕ}
    (hfst : List.Perm (pr.map Prod.fst) (List.range T))
    (hsnd : pr.map Prod.snd = List.range' 1 T)
    {t : ℕ} (ht : t < T) :
    ∑ p ∈ Finset.range T, pr.count (t, p + 1) = 1 := by
  have hfst_count : (pr.map Prod.fst).count t = 1 := by
    rw [hfst.count_eq]
    exact count_eq_one_of_nodup_mem (List.nodup_range T) (List.mem_range.mpr ht)
  have hmem_t : t ∈ pr.map Prod.fst := hfst.mem_iff.mpr (List.mem_range.mpr ht)
  obtain ⟨⟨t1, q⟩, hpairmem, hpairfst⟩ := List.mem_map.mp hmem_t
  have ht1 : t1 = t := hpairfst
  subst t1
  have hq_mem : q ∈ pr.map Prod.snd := List.mem_map_of_mem Prod.snd hpairmem
  rw [hsnd] at hq_mem
  have hq_range := List.mem_range'_1.mp hq_mem
  have hcount_q : pr.count (t, q) = 1 := by
    have h1 : pr.count (t, q) ≤ (pr.map Prod.fst).count t := by
      have := count_le_count_map Prod.fst pr (t, q)
      simpa using this
    have h2 : 1 ≤ pr.count (t, q) := List.count_pos_iff.mpr hpairmem
    omega
  rw [Finset.sum_eq_single (q - 1)]
  · rw [show q - 1 + 1 = q by omega]
    exact hcount_q
  · intro p _ hpq
    by_contra hpos
    have hmem2 : (t, p + 1) ∈ pr := by
      refine List.count_pos_iff.mp ?_
      omega
    have hne : (t, q) ≠ (t, p + 1) := by
      simp only [ne_eq, Prod.mk.injEq, not_and]
      intro _
      omega
    have h2 := two_mem_le_count_map Prod.fst pr (t, q) (t, p + 1) hpairmem hmem2 hne rfl
    simp only at h2
    omega
  · intro hnot
    exact absurd (Finset.mem_range.mpr (by omega)) hnot

theorem pairlist_col_count {pr : List (ℕ × ℕ)} {T : ℕ}
    (hfst : List.Perm (pr.map Prod.fst) (List.range T))
    (hsnd : pr.map Prod.snd = List.range' 1 T)
    {p : ℕ} (hp : p < T) :
    ∑ t ∈ Finset.range T, pr.count (t, p + 1) = 1 := by
  have hsnd_count : (pr.map Prod.snd).count (p + 1) = 1 := by
    rw [hsnd]
    exact count_eq_one_of_nodup_mem (List.nodup_range' _ _)
      (List.mem_range'_1.mpr ⟨by omega, by omega⟩)
  have hmem_p : p + 1 ∈ pr.map Prod.snd := by
    rw [hsnd]
    exact List.mem_range'_1.mpr ⟨by omega, by omega⟩
  obtain ⟨⟨t', q1⟩, hpairmem, hpairsnd⟩ := List.mem_map.mp hmem_p
  have hq1 : q1 = p + 1 := hpairsnd
  subst q1
  have ht'_mem : t' ∈ pr.map Prod.fst := List.mem_map_of_mem Prod.fst hpairmem
  have ht' : t' < T := List.mem_range.mp (hfst.mem_iff.mp ht'_mem)
  have hcount_t' : pr.count (t', p + 1) = 1 := by
    have h1 : pr.count (t', p + 1) ≤ (pr.map Prod.snd).count (p + 1) := by
      have := count_le_count_map Prod.snd pr (t', p + 1)
      simpa using this
    have h2 : 1 ≤ pr.count (t', p + 1) := List.count_pos_iff.mpr hpairmem
    omega
  rw [Finset.sum_eq_single t']
  · exact hcount_t'
  · intro t _ htne
    by_contra hpos
    have hmem2 : (t, p + 1) ∈ pr := by
      refine List.count_pos_iff.mp ?_
      omega
    have hne : (t', p + 1) ≠ (t, p + 1) := by
      simp only [ne_eq, Prod.mk.injEq, not_and]
      intro h
      exact absurd h.symm htne
    have h2 := two_mem_le_count_map Prod.snd pr (t', p + 1) (t, p + 1) hpairmem hmem2 hne rfl
    simp only at h2
    omega
  · intro hnot
    exact absurd (Finset.mem_range.mpr ht') hnot

theorem trial_pairs_fst (stdRng : ℕ → ℕ → ℝ) (season : Season) (params : SimulationParams)
    (i : ℕ) :
    List.Perm
      (((trialTable stdRng season params i).standings.map
        (fun s => (s.team_id, s.position))).map Prod.fst)
      (List.range season.number_teams) := by
  rw [List.map_map]
  have h := (calculate_table_perm_core
    (simulate_season season params.mod_factor params.home_advantage params.tore_slope
      params.tore_intercept (stdRng i)).1
    season.number_teams none none none none).2.1
  simpa [trialTable, process_season, Function.comp] using h

theorem trial_pairs_snd (stdRng : ℕ → ℕ → ℝ) (season : Season) (params : SimulationParams)
    (i : ℕ) :
    ((trialTable stdRng season params i).standings.map
      (fun s => (s.team_id, s.position))).map Prod.snd = List.range' 1 season.number_teams := by
  rw [List.map_map]
  have h := (calculate_table_perm_core
    (simulate_season season params.mod_factor params.home_advantage params.tore_slope
      params.tore_intercept (stdRng i)).1
    season.number_teams none none none none).2.2
  simpa [trialTable, process_season, Function.comp] using h

theorem histAfter_range_eq (stdRng : ℕ → ℕ → ℝ) (season : Season) (params : SimulationParams)
    (N t p : ℕ) :
    histAfter stdRng season params (List.range N) t p
      = ∑ i ∈ Finset.range N, trialCount stdRng season params i t p := by
  induction N with
  | zero => simp [histAfter]
  | succ n ih =>
    rw [show List.range (n + 1) = List.range n ++ [n] from List.range_succ n,
      Finset.sum_range_succ, ← ih]
    simp only [histAfter, List.foldl_append, List.foldl_cons, List.foldl_nil]
    rfl

theorem trial_row_sum (stdRng : ℕ → ℕ → ℝ) (season : Season) (params : SimulationParams)
    (i : ℕ) {t : ℕ} (ht : t < season.number_teams) :
    ∑ p ∈ Finset.range season.number_teams, trialCount stdRng season params i t p = 1 := by
  simp only [trialCount]
  exact pairlist_row_count (trial_pairs_fst stdRng season params i)
    (trial_pairs_snd stdRng season params i) ht

theorem trial_col_sum (stdRng : ℕ → ℕ → ℝ) (season : Season) (params : SimulationParams)
    (i : ℕ) {p : ℕ} (hp : p < season.number_teams) :
    ∑ t ∈ Finset.range season.number_teams, trialCount stdRng season params i t p = 1 := by
  simp only [trialCount]
  exact pairlist_col_count (trial_pairs_fst stdRng season params i)
    (trial_pairs_snd stdRng season params i) hp

theorem hist_row_sum (stdRng : ℕ → ℕ → ℝ) (season : Season) (params : SimulationParams)
    {t : ℕ} (ht : t < season.number_teams) :
    ∑ p ∈ Finset.range season.number_teams,
      histAfter stdRng season params (List.range params.iterations) t p
        = params.iterations := by
  rw [Finset.sum_congr rfl (fun p _ => histAfter_range_eq stdRng season params _ t p),
    Finset.sum_comm,
    Finset.sum_congr rfl (fun i _ => trial_row_sum stdRng season params i ht)]
  simp

theorem hist_col_sum (stdRng : ℕ → ℕ → ℝ) (season : Season) (params : SimulationParams)
    {p : ℕ} (hp : p < season.number_teams) :
    ∑ t ∈ Finset.range season.number_teams,
      histAfter stdRng season params (List.range params.iterations) t p
        = params.iterations := by
  rw [Finset.sum_congr rfl (fun t _ => histAfter_range_eq stdRng season params _ t p),
    Finset.sum_comm,
    Finset.sum_congr rfl (fun i _ => trial_col_sum stdRng season params i hp)]
  simp

theorem list_sum_range {M : Type} [AddCommMonoid M] (f : ℕ → M) (n : ℕ) :
    ((List.range n).map f).sum = ∑ i ∈ Finset.range n, f i := by
  induction n with
  | zero => simp
  | succ k ih =>
    rw [show List.range (k + 1) = List.range k ++ [k] from List.range_succ k,
      List.map_append, List.sum_append, Finset.sum_range_succ, ih]
    simp

theorem probMatrix_getD_row (stdRng : ℕ → ℕ → ℝ) (season : Season) (params : SimulationParams)
    (sched : List ℕ) {t : ℕ} (ht : t < season.number_teams) :
    (probMatrix stdRng season params sched).getD t []
      = (List.range season.number_teams).map
          (fun p => ((histAfter stdRng season params sched t p : ℕ) : ℝ) /
            (params.iterations : ℝ)) := by
  rw [probMatrix, List.getD_eq_getElem?_getD, List.getElem?_map]
  simp [List.getElem?_range, ht]

theorem probMatrix_entry (stdRng : ℕ → ℕ → ℝ) (season : Season) (params : SimulationParams)
    (sched : List ℕ) {t p : ℕ} (ht : t < season.number_teams) (hp : p < season.number_teams) :
    ((probMatrix stdRng season params sched).getD t []).getD p 0
      = ((histAfter stdRng season params sched t p : ℕ) : ℝ) / (params.iterations : ℝ) := by
  rw [probMatrix_getD_row stdRng season params sched ht,
    List.getD_eq_getElem?_getD, List.getElem?_map]
  simp [List.getElem?_range, hp]

theorem probMatrix_row_sum (stdRng : ℕ → ℕ → ℝ) (season : Season) (params : SimulationParams)
    (hN : 1 ≤ params.iterations) {t : ℕ} (ht : t < season.number_teams) :
    ((probMatrix stdRng season params (List.range params.iterations)).getD t []).sum = 1 := by
  rw [probMatrix_getD_row stdRng season params _ ht, list_sum_range, ← Finset.sum_div,
    ← Nat.cast_sum, hist_row_sum stdRng season params ht]
  exact div_self (Nat.cast_ne_zero.mpr (by omega))

/-- C6: each row and each column of the probability matrix returned by
`run_monte_carlo_simulation` sums to exactly `1`: every cell is an integer
trial count divided by `N`, per trial each team holds exactly one position
and each position is held by exactly one team, and the display reordering
only permutes rows. -/
theorem probability_matrix_doubly_stochastic (stdRng : ℕ → ℕ → ℝ) (season : Season)
    (params : SimulationParams) (_hT : 1 ≤ season.number_teams)
    (hN : 1 ≤ params.iterations) :
    (∀ row ∈ run_monte_carlo_simulation stdRng season params, row.sum = 1) ∧
    ∀ p < season.number_teams,
      ((run_monte_carlo_simulation stdRng season params).map (fun row => row.getD p 0)).sum
        = 1 := by
  constructor
  · intro row hrow
    simp only [run_monte_carlo_simulation, run_monte_carlo_scheduled] at hrow
    rcases List.mem_map.mp hrow with ⟨pr, hpr, rfl⟩
    have hpr2 := (List.perm_insertionSort rankLe _).mem_iff.mp hpr
    rcases List.mem_map.mp hpr2 with ⟨t, htmem, rfl⟩
    exact probMatrix_row_sum stdRng season params hN (List.mem_range.mp htmem)
  · intro p hp
    have hmain : ((List.range season.number_teams).map
        (fun t => ((probMatrix stdRng season params (List.range params.iterations)).getD t []
          ).getD p 0)).sum = 1 := by
      rw [List.map_congr_left (fun t htm =>
          probMatrix_entry stdRng season params (List.range params.iterations)
            (List.mem_range.mp htm) hp),
        list_sum_range, ← Finset.sum_div, ← Nat.cast_sum,
        hist_col_sum stdRng season params hp]
      exact div_self (Nat.cast_ne_zero.mpr (by omega))
    simp only [run_monte_carlo_simulation, run_monte_carlo_scheduled, List.map_map]
    rw [List.Perm.sum_eq (((List.perm_insertionSort rankLe _)).map _), List.map_map]
    exact hmain

/-- Witness for C6: a one-team season with a single trial. -/
theorem probability_matrix_doubly_stochastic_witness :
    1 ≤ (⟨[], [], 1⟩ : Season).number_teams ∧
    1 ≤ (⟨20, 65, 1, 1, 1⟩ : SimulationParams).iterations ∧
    ((∀ row ∈ run_monte_carlo_simulation (fun _ _ => 1/2) ⟨[], [], 1⟩ ⟨20, 65, 1, 1, 1⟩,
        row.sum = 1) ∧
      ∀ p < (⟨[], [], 1⟩ : Season).number_teams,
        ((run_monte_carlo_simulation (fun _ _ => 1/2) ⟨[], [], 1⟩ ⟨20, 65, 1, 1, 1⟩).map
          (fun row => row.getD p 0)).sum = 1) :=
  ⟨by decide, by decide,
    probability_matrix_doubly_stochastic (fun _ _ => 1/2) ⟨[], [], 1⟩ ⟨20, 65, 1, 1, 1⟩
      (by decide) (by decide)⟩

end LeagueSim
